import Mathlib

/-!
Verification of the star-enrichment pipeline: a shallow embedding of the
adaptive GitHub API client, the enrichment orchestrator state machine, the
ingestion diffing logic, and the deterministic post-processing (country
canonicalization, employer splitting, social-account reconciliation, CSV
field escaping), together with theorems settling the specified properties.
-/

set_option maxRecDepth 100000

namespace StarEnrichment

/-! ## Country canonicalization (src/enrichment/country.ts) -/

/-- The fixed synonym table `COUNTRY_STANDARDIZATION`, in source order. -/
def COUNTRY_STANDARDIZATION : List (String × String) := [
  ("united states", "US"),
  ("united states of america", "US"),
  ("usa", "US"),
  ("us", "US"),
  ("u.s.", "US"),
  ("u.s.a.", "US"),
  ("america", "US"),
  ("united kingdom", "UK"),
  ("great britain", "UK"),
  ("britain", "UK"),
  ("uk", "UK"),
  ("u.k.", "UK"),
  ("gb", "UK"),
  ("england", "UK"),
  ("scotland", "UK"),
  ("wales", "UK"),
  ("northern ireland", "UK"),
  ("china", "China"),
  ("cn", "China"),
  ("prc", "China"),
  ("people's republic of china", "China"),
  ("japan", "Japan"),
  ("jp", "Japan"),
  ("taiwan", "Taiwan"),
  ("tw", "Taiwan"),
  ("republic of china", "Taiwan"),
  ("india", "India"),
  ("in", "India"),
  ("germany", "Germany"),
  ("de", "Germany"),
  ("deutschland", "Germany"),
  ("france", "France"),
  ("fr", "France"),
  ("canada", "Canada"),
  ("ca", "Canada"),
  ("australia", "Australia"),
  ("au", "Australia"),
  ("brazil", "Brazil"),
  ("br", "Brazil"),
  ("brasil", "Brazil"),
  ("russia", "Russia"),
  ("ru", "Russia"),
  ("russian federation", "Russia"),
  ("south korea", "South Korea"),
  ("korea", "South Korea"),
  ("kr", "South Korea"),
  ("republic of korea", "South Korea"),
  ("singapore", "Singapore"),
  ("sg", "Singapore"),
  ("netherlands", "Netherlands"),
  ("nl", "Netherlands"),
  ("holland", "Netherlands"),
  ("spain", "Spain"),
  ("es", "Spain"),
  ("españa", "Spain"),
  ("italy", "Italy"),
  ("it", "Italy"),
  ("italia", "Italy"),
  ("poland", "Poland"),
  ("pl", "Poland"),
  ("polska", "Poland"),
  ("sweden", "Sweden"),
  ("se", "Sweden"),
  ("sverige", "Sweden"),
  ("switzerland", "Switzerland"),
  ("ch", "Switzerland"),
  ("israel", "Israel"),
  ("il", "Israel"),
  ("mexico", "Mexico"),
  ("mx", "Mexico"),
  ("méxico", "Mexico"),
  ("argentina", "Argentina"),
  ("ar", "Argentina"),
  ("turkey", "Turkey"),
  ("türkiye", "Turkey"),
  ("tr", "Turkey"),
  ("ukraine", "Ukraine"),
  ("ua", "Ukraine"),
  ("indonesia", "Indonesia"),
  ("id", "Indonesia"),
  ("vietnam", "Vietnam"),
  ("vn", "Vietnam"),
  ("thailand", "Thailand"),
  ("th", "Thailand"),
  ("philippines", "Philippines"),
  ("ph", "Philippines"),
  ("malaysia", "Malaysia"),
  ("my", "Malaysia"),
  ("pakistan", "Pakistan"),
  ("pk", "Pakistan"),
  ("bangladesh", "Bangladesh"),
  ("bd", "Bangladesh"),
  ("egypt", "Egypt"),
  ("eg", "Egypt"),
  ("nigeria", "Nigeria"),
  ("ng", "Nigeria"),
  ("south africa", "South Africa"),
  ("za", "South Africa"),
  ("new zealand", "New Zealand"),
  ("nz", "New Zealand"),
  ("ireland", "Ireland"),
  ("ie", "Ireland"),
  ("belgium", "Belgium"),
  ("be", "Belgium"),
  ("austria", "Austria"),
  ("at", "Austria"),
  ("denmark", "Denmark"),
  ("dk", "Denmark"),
  ("norway", "Norway"),
  ("no", "Norway"),
  ("finland", "Finland"),
  ("fi", "Finland"),
  ("portugal", "Portugal"),
  ("pt", "Portugal"),
  ("greece", "Greece"),
  ("gr", "Greece"),
  ("czech republic", "Czech Republic"),
  ("czechia", "Czech Republic"),
  ("cz", "Czech Republic"),
  ("romania", "Romania"),
  ("ro", "Romania"),
  ("hungary", "Hungary"),
  ("hu", "Hungary")
]

/-- Key lookup in the synonym table (JS object property access: exact key). -/
def lookupCountry (key : String) : Option String :=
  (COUNTRY_STANDARDIZATION.find? (fun p => p.1 == key)).map (fun p => p.2)

/-- The source's `String.toLowerCase()` (ASCII; all claim inputs and canonical values are
ASCII). Defined on the character list so that it evaluates by kernel
reduction. -/
def toLowerStr (s : String) : String := String.mk (s.data.map Char.toLower)

/-- The source's `String.trim()`: strip leading and trailing whitespace. -/
def trimStr (s : String) : String :=
  String.mk (((s.data.dropWhile Char.isWhitespace).reverse.dropWhile
    Char.isWhitespace).reverse)

/-- The source's `trimmed.split(/\s+/)`: the whitespace-separated words of a string, in
order, with no empty tokens. -/
def splitWords : List Char → List Char → List String
  | [], cur => if cur = [] then [] else [String.mk cur.reverse]
  | c :: cs, cur =>
    if c.isWhitespace then
      if cur = [] then splitWords cs []
      else String.mk cur.reverse :: splitWords cs []
    else splitWords cs (c :: cur)

/-- Title-casing of one word: `word.charAt(0).toUpperCase() + word.slice(1).toLowerCase()`. -/
def titleWord (w : String) : String :=
  match w.data with
  | [] => ""
  | c :: cs => String.mk (c.toUpper :: cs.map Char.toLower)

/-- The unmapped fallback: `country.trim().split(/\s+/).map(titleWord).join(" ")`. -/
def titleCaseFallback (country : String) : String :=
  String.intercalate " " ((splitWords country.data []).map titleWord)

/-- The function `standardizeCountry` from src/enrichment/country.ts; `none` models
null/undefined input. -/
def standardizeCountry : Option String → Option String
  | none => none
  | some country =>
    if country = "" then none
    else
      let normalized := toLowerStr (trimStr country)
      if normalized = "" then none
      else
        match lookupCountry normalized with
        | some std => some std
        | none => some (titleCaseFallback country)

/-! ## CSV export (dump command) -/

/-- One entry of a user's declared social accounts (provider/URL pair). -/
structure SocialAccount where
  provider : String
  url : String
deriving DecidableEq, Repr

/-- One employer record from the extraction schema. -/
structure Employer where
  name : String
  current : Bool
deriving DecidableEq, Repr

/-- The function `escapeCSV` from the dump command: null/undefined become the empty cell;
a value containing a comma, double quote, or newline is wrapped in double
quotes with embedded quotes doubled; anything else is returned verbatim. -/
def escapeCSV : Option String → String
  | none => ""
  | some s =>
    if s.data.contains ',' || s.data.contains '"' || s.data.contains '\n' then
      "\"" ++ String.mk ((s.data.map (fun c => if c = '"' then ['"', '"'] else [c])).flatten) ++ "\""
    else s

/-- The function `parseEmployers` from the dump command: `none` models a null or
unparseable employers column; otherwise partition into comma-joined
current/past name strings. -/
def parseEmployers : Option (List Employer) → String × String
  | none => ("", "")
  | some employers =>
    (String.intercalate ", " ((employers.filter (fun e => e.current)).map (fun e => e.name)),
     String.intercalate ", " ((employers.filter (fun e => !e.current)).map (fun e => e.name)))

/-- Whether `s` starts with `pre`, on character lists (`charsBegin pre s`). -/
def charsBegin : List Char → List Char → Bool
  | [], _ => true
  | _ :: _, [] => false
  | p :: ps, c :: cs => p == c && charsBegin ps cs

/-- The source's `s.startsWith(pre)` on kernel-reducible character lists. -/
def strBegins (s pre : String) : Bool := charsBegin pre.data s.data

/-- The loop body of `parseSocialAccounts`: thread the linkedin, twitter and
overflow accumulators through the social-account list. -/
def socialFold : String → String → List String → List SocialAccount → String × String × List String
  | li, tw, others, [] => (li, tw, others)
  | li, tw, others, a :: rest =>
    if toLowerStr a.provider == "linkedin" then
      socialFold (if li = "" then a.url else li) tw others rest
    else if toLowerStr a.provider == "twitter" then
      socialFold li (if tw = "" then a.url else tw) others rest
    else
      socialFold li tw (others ++ [a.provider ++ ": " ++ a.url]) rest

/-- The function `parseSocialAccounts` from the dump command. `none` for the social list
models a null or unparseable social_accounts column; `none` for the dedicated
fields models NULL columns (JS truthiness also treats `""` as absent, which
`Option.getD ""` reproduces). -/
def parseSocialAccounts (social : Option (List SocialAccount))
    (existingLinkedin existingTwitter : Option String) : String × String × String :=
  let res :=
    match social with
    | none => (existingLinkedin.getD "", existingTwitter.getD "", ([] : List String))
    | some accounts => socialFold (existingLinkedin.getD "") (existingTwitter.getD "") [] accounts
  let tw := res.2.1
  let tw2 := if tw ≠ "" ∧ strBegins tw "http" = false then "https://twitter.com/" ++ tw else tw
  (res.1, tw2, String.intercalate ", " res.2.2)

/-- The enriched columns of one left-joined export row; a stargazer with no
EnrichedProfile has `none` for the whole record. -/
structure EnrichedExport where
  name : Option String
  email : Option String
  country : Option String
  employers : Option (List Employer)
  linkedin_url : Option String
  website_url : Option String
  university : Option String
  twitter_username : Option String
  social_accounts : Option (List SocialAccount)

/-- One data row of the CSV export, in column order: username, starred_at,
name, email, country, current_employer, past_employers, linkedin_url,
twitter_url, website_url, university, other_socials. -/
def buildRow (username : String) (starredAt : Option String)
    (e : Option EnrichedExport) : List String :=
  let ep := parseEmployers (e.bind (fun r => r.employers))
  let soc := parseSocialAccounts (e.bind (fun r => r.social_accounts))
    (e.bind (fun r => r.linkedin_url)) (e.bind (fun r => r.twitter_username))
  [escapeCSV (some username),
   escapeCSV starredAt,
   escapeCSV (e.bind (fun r => r.name)),
   escapeCSV (e.bind (fun r => r.email)),
   escapeCSV (e.bind (fun r => r.country)),
   escapeCSV (some ep.1),
   escapeCSV (some ep.2),
   escapeCSV (some soc.1),
   escapeCSV (some soc.2.1),
   escapeCSV (e.bind (fun r => r.website_url)),
   escapeCSV (e.bind (fun r => r.university)),
   escapeCSV (some soc.2.2)]

/-- The code's resolution of a dedicated social field: the dedicated value if
nonempty, otherwise the URL of the first provider-matching entry with a
nonempty URL, otherwise empty. -/
def resolveField (provider dedicated : String) (accounts : List SocialAccount) : String :=
  if dedicated = "" then
    (((accounts.find? (fun a => toLowerStr a.provider == provider && a.url != "")).map
      (fun a => a.url)).getD "")
  else dedicated

/-- The claim's resolution of a dedicated social field, following the spec's
words: the dedicated value if nonempty, otherwise the URL of the first
provider-matching entry (regardless of that URL being empty). -/
def resolveFieldFirstMatch (provider dedicated : String) (accounts : List SocialAccount) : String :=
  if dedicated = "" then
    (((accounts.find? (fun a => toLowerStr a.provider == provider)).map
      (fun a => a.url)).getD "")
  else dedicated

/-- The twitter rewrite: a nonempty resolved value with no "http" prefix is
rewritten to the fixed URL template. -/
def twitterRewrite (tw : String) : String :=
  if tw ≠ "" ∧ strBegins tw "http" = false then "https://twitter.com/" ++ tw else tw

/-- The overflow entries: each non-linkedin non-twitter account rendered
verbatim as provider-colon-url, in list order. -/
def othersOf (accounts : List SocialAccount) : List String :=
  (accounts.filter (fun a => !(toLowerStr a.provider == "linkedin") &&
    !(toLowerStr a.provider == "twitter"))).map (fun a => a.provider ++ ": " ++ a.url)

/-- The social-account loop computes, for each dedicated field, the dedicated
value if nonempty and otherwise the first provider-matching nonempty URL, and
appends each other-provider entry to the overflow accumulator in order. -/
theorem socialFold_spec (accounts : List SocialAccount) :
    ∀ li tw others,
      socialFold li tw others accounts =
        (resolveField "linkedin" li accounts,
         resolveField "twitter" tw accounts,
         others ++ othersOf accounts) := by
  induction accounts with
  | nil =>
    intro li tw others
    by_cases hli : li = "" <;> by_cases htw : tw = "" <;>
      simp [socialFold, resolveField, othersOf, hli, htw]
  | cons a rest ih =>
    intro li tw others
    by_cases h1 : toLowerStr a.provider = "linkedin"
    · by_cases hli : li = ""
      · by_cases hau : a.url = ""
        · simp [socialFold, h1, hli, hau, ih, resolveField, othersOf]
        · simp [socialFold, h1, hli, hau, ih, resolveField, othersOf]
      · simp [socialFold, h1, hli, ih, resolveField, othersOf]
    · by_cases h2 : toLowerStr a.provider = "twitter"
      · by_cases htw : tw = ""
        · by_cases hau : a.url = ""
          · simp [socialFold, h1, h2, htw, hau, ih, resolveField, othersOf]
          · simp [socialFold, h1, h2, htw, hau, ih, resolveField, othersOf]
        · simp [socialFold, h1, h2, htw, ih, resolveField, othersOf]
      · simp [socialFold, h1, h2, ih, resolveField, othersOf]

/-! ## Rate-limited API client (GitHubClient, adaptive variant) -/

def MIN_DELAY_MS : Nat := 100

def MAX_DELAY_MS : Nat := 60000

def RATE_LIMIT_THRESHOLD : Nat := 500

def RATE_LIMIT_RESERVE : Nat := 20

/-- The delay chosen by `adaptiveWait`, from the tracked remaining quota, the
reported reset instant (epoch seconds) and the current time (epoch ms).
Nat subtraction truncates at zero exactly like the source's Math.max(0, _),
and Nat division is the source's Math.floor. -/
def adaptiveWaitDelay (remaining reset now : Nat) : Nat :=
  let timeUntilReset := reset * 1000 - now
  if reset = 0 ∨ timeUntilReset = 0 then MIN_DELAY_MS
  else if RATE_LIMIT_THRESHOLD < remaining then MIN_DELAY_MS
  else
    let availableCalls := max 1 (remaining - RATE_LIMIT_RESERVE)
    let calculatedDelay := timeUntilReset / availableCalls
    min MAX_DELAY_MS (max MIN_DELAY_MS calculatedDelay)

/-- One round of the pacing simulation of the claim: wait the computed delay,
then issue one request if the reset instant has not yet been reached (the
server decrements the remaining quota); past the reset instant nothing is
consumed. State is (remaining quota, current time in ms). -/
def paceStep (reset : Nat) : Nat × Nat → Nat × Nat
  | (r, now) =>
    let d := adaptiveWaitDelay r reset now
    if reset * 1000 ≤ now + d then (r, now + d)
    else (r - 1, now + d)

/-- Iterated pacing: `n` rounds of the simulation. -/
def paceSim (reset : Nat) : Nat → Nat × Nat → Nat × Nat
  | 0, s => s
  | n + 1, s => paceSim reset n (paceStep reset s)

/-- Response dispatch outcome of `GitHubClient.request`. -/
inductive ReqAction where
  | success
  | retryAfterWait (waitMs : Nat)
  | failure
deriving DecidableEq, Repr

/-- The non-2xx dispatch of `request`: an ok response succeeds; a 403
response while the tracked remaining quota is zero waits until the reported
reset instant plus a one-second buffer and transparently retries the same
request; every other non-ok response raises. -/
def handleResponse (ok : Bool) (status remaining reset now : Nat) : ReqAction :=
  if ok then ReqAction.success
  else if status = 403 ∧ remaining = 0 then
    ReqAction.retryAfterWait ((reset * 1000 - now) + 1000)
  else ReqAction.failure

/-- Whether a dispatch outcome is the transparent retry. -/
def isRetry : ReqAction → Bool
  | ReqAction.retryAfterWait _ => true
  | _ => false

/-- One pacing round keeps the remaining quota at or above the reserve and
keeps the time-to-reset at or below the maximum delay, provided the
time-to-reset started at or below the maximum delay. -/
theorem paceStep_invariant (reset r now : Nat)
    (hr : RATE_LIMIT_RESERVE ≤ r) (ht : reset * 1000 - now ≤ MAX_DELAY_MS) :
    RATE_LIMIT_RESERVE ≤ (paceStep reset (r, now)).1 ∧
    reset * 1000 - (paceStep reset (r, now)).2 ≤ MAX_DELAY_MS := by
  simp only [RATE_LIMIT_RESERVE, MAX_DELAY_MS] at hr ht ⊢
  by_cases hstop : reset * 1000 ≤ now + adaptiveWaitDelay r reset now
  · simp only [paceStep, hstop, if_pos]
    exact ⟨hr, by omega⟩
  · have hr21 : 21 ≤ r := by
      rcases Nat.lt_or_ge 20 r with h | h
      · omega
      · exfalso
        have hr20 : r = 20 := by omega
        rw [hr20] at hstop
        have hd : reset * 1000 - now ≤ adaptiveWaitDelay 20 reset now := by
          simp only [adaptiveWaitDelay, MIN_DELAY_MS, MAX_DELAY_MS,
            RATE_LIMIT_THRESHOLD, RATE_LIMIT_RESERVE]
          split_ifs with h1 h2
          · rcases h1 with h1 | h1 <;> omega
          · omega
          · simp only [Nat.sub_self, Nat.max_eq_left (Nat.zero_le 1), Nat.div_one]
            omega
        omega
    simp only [paceStep, hstop, if_neg, if_false]
    exact ⟨by omega, by omega⟩

/-- The pacing simulation preserves the reserve and the time bound over any
number of rounds. -/
theorem paceSim_invariant (reset : Nat) :
    ∀ (n r now : Nat), RATE_LIMIT_RESERVE ≤ r → reset * 1000 - now ≤ MAX_DELAY_MS →
      RATE_LIMIT_RESERVE ≤ (paceSim reset n (r, now)).1 ∧
      reset * 1000 - (paceSim reset n (r, now)).2 ≤ MAX_DELAY_MS
  | 0, r, now, hr, ht => ⟨hr, ht⟩
  | n + 1, r, now, hr, ht => by
    have h := paceStep_invariant reset r now hr ht
    have h2 := paceSim_invariant reset n (paceStep reset (r, now)).1
      (paceStep reset (r, now)).2 h.1 h.2
    simpa [paceSim] using h2

/-! ## Data model: stargazers and enriched_profiles tables -/

/-- enrichment_status values. -/
inductive Status where
  | pending
  | completed
  | failed
deriving DecidableEq, Repr

/-- One row of the stargazers table; `enrichedAt` records whether the
enrichment timestamp has been set. -/
structure SRow where
  id : Nat
  username : String
  starredAt : String
  status : Status
  enrichedAt : Bool
deriving DecidableEq, Repr

/-- One item of the upstream stargazer listing. -/
structure Stargazer where
  starredAt : String
  userId : Nat
  login : String
deriving DecidableEq, Repr

/-- A GitHub user profile (the fields the pipeline reads). -/
structure GitHubUserProfile where
  id : Nat
  login : String
  name : Option String
  bio : Option String
  location : Option String
  company : Option String
  blog : Option String
  twitter_username : Option String
  email : Option String
deriving DecidableEq, Repr

/-- One row of the enriched_profiles table (JSON text columns modeled
structurally). -/
structure ERow where
  githubId : Nat
  name : Option String
  bio : Option String
  location : Option String
  company : Option String
  country : Option String
  employers : List Employer
  linkedin_url : Option String
  website_url : Option String
  university : Option String
  email : Option String
  twitter_username : Option String
  social_accounts : List SocialAccount
  raw : GitHubUserProfile
deriving DecidableEq, Repr

/-- The durable store: both tables. -/
structure Store where
  stargazers : List SRow
  enriched : List ERow
deriving DecidableEq, Repr

/-! ## Ingestion (runFetch) -/

/-- The pending stargazer row inserted for a newly observed upstream item. -/
def mkPendingRow (g : Stargazer) : SRow :=
  ⟨g.userId, g.login, g.starredAt, Status.pending, false⟩

/-- INSERT INTO stargazers, honoring the PRIMARY KEY on id and the UNIQUE
constraint on username (the store engine raises on violation). -/
def insertStargazer (st : Store) (g : Stargazer) : Except Unit Store :=
  if st.stargazers.any (fun r => r.id == g.userId) then Except.error ()
  else if st.stargazers.any (fun r => r.username == g.login) then Except.error ()
  else Except.ok { st with stargazers := st.stargazers ++ [mkPendingRow g] }

/-- The insertion loop of runFetch: `existing` is the id set read once before
the loop; ids already in it are skipped, all others inserted. -/
def fetchLoop (existing : List Nat) : Store → Nat → List Stargazer → Except Unit (Store × Nat)
  | st, n, [] => Except.ok (st, n)
  | st, n, g :: rest =>
    if existing.contains g.userId then fetchLoop existing st n rest
    else
      match insertStargazer st g with
      | Except.ok st2 => fetchLoop existing st2 (n + 1) rest
      | Except.error e => Except.error e

/-- The source's `stargazers.slice(-limit)` applied when a positive limit smaller than the
list length is requested: keep the last `limit` entries. -/
def applyLimit (limit : Option Nat) (gs : List Stargazer) : List Stargazer :=
  match limit with
  | some l => if 0 < l ∧ l < gs.length then gs.drop (gs.length - l) else gs
  | none => gs

/-- The function `runFetch` from the worker: fetch the upstream list, apply the limit,
read the stored id set once, and insert every unseen stargazer as a pending
row. Returns the new store and the inserted count; constraint violations
abort the run. -/
def runFetch (upstream : List Stargazer) (limit : Option Nat) (st : Store) :
    Except Unit (Store × Nat) :=
  fetchLoop (st.stargazers.map (fun r => r.id)) st 0 (applyLimit limit upstream)

/-- The insertion loop on a batch with pairwise distinct ids and logins, no
item of which clashes with the current store unless its id is in the pre-read
id set, succeeds and appends exactly the pending rows of the unseen ids. -/
theorem fetchLoop_ok (existing : List Nat) :
    ∀ (gs : List Stargazer) (st : Store) (n : Nat),
      (gs.map (fun g => g.userId)).Nodup →
      (gs.map (fun g => g.login)).Nodup →
      (∀ g ∈ gs, existing.contains g.userId = false →
        ∀ r ∈ st.stargazers, r.id ≠ g.userId ∧ r.username ≠ g.login) →
      fetchLoop existing st n gs = Except.ok
        ({ st with stargazers := st.stargazers ++
            ((gs.filter (fun g => !existing.contains g.userId)).map mkPendingRow) },
         n + (gs.filter (fun g => !existing.contains g.userId)).length)
  | [], st, n, _, _, _ => by simp [fetchLoop]
  | g :: rest, st, n, hids, hlogins, hfresh => by
    have hidsp : (∀ x ∈ rest, ¬x.userId = g.userId) ∧
        (rest.map (fun g => g.userId)).Nodup := by simpa using hids
    have hloginsp : (∀ x ∈ rest, ¬x.login = g.login) ∧
        (rest.map (fun g => g.login)).Nodup := by simpa using hlogins
    have hids2 := hidsp.2
    have hlogins2 := hloginsp.2
    by_cases hex : existing.contains g.userId
    · have hexm : g.userId ∈ existing := by simpa using hex
      have ih := fetchLoop_ok existing rest st n hids2 hlogins2
        (fun g2 h2 => hfresh g2 (List.mem_cons_of_mem _ h2))
      simp [fetchLoop, hexm, ih, List.filter_cons]
    · have hexf : existing.contains g.userId = false := by
        simpa using hex
      have hg := hfresh g (List.mem_cons_self _ _) hexf
      have hany1 : st.stargazers.any (fun r => r.id == g.userId) = false := by
        rw [List.any_eq_false]
        intro r hr
        simpa using (hg r hr).1
      have hany2 : st.stargazers.any (fun r => r.username == g.login) = false := by
        rw [List.any_eq_false]
        intro r hr
        simpa using (hg r hr).2
      have ih := fetchLoop_ok existing rest
        { st with stargazers := st.stargazers ++ [mkPendingRow g] } (n + 1)
        hids2 hlogins2 (by
          intro g2 h2 hex2 r hr
          rcases List.mem_append.mp hr with hr1 | hr2
          · exact hfresh g2 (List.mem_cons_of_mem _ h2) hex2 r hr1
          · have hre : r = mkPendingRow g := by simpa using hr2
            subst hre
            constructor
            · simp only [mkPendingRow]
              intro hcontra
              exact hidsp.1 g2 h2 hcontra.symm
            · simp only [mkPendingRow]
              intro hcontra
              exact hloginsp.1 g2 h2 hcontra.symm)
      have hexm : g.userId ∉ existing := by simpa using hexf
      have hne1 : ¬∃ x ∈ st.stargazers, x.id = g.userId := by
        rintro ⟨x, hx, hxe⟩
        exact (hg x hx).1 hxe
      have hne2 : ¬∃ x ∈ st.stargazers, x.username = g.login := by
        rintro ⟨x, hx, hxe⟩
        exact (hg x hx).2 hxe
      simp [fetchLoop, hexm, insertStargazer, hne1, hne2, ih, List.filter_cons]
      omega

/-- The insertion loop inserts nothing when every batch id is already in the
pre-read id set. -/
theorem fetchLoop_noop (existing : List Nat) :
    ∀ (gs : List Stargazer) (st : Store) (n : Nat),
      (∀ g ∈ gs, existing.contains g.userId = true) →
      fetchLoop existing st n gs = Except.ok (st, n)
  | [], st, n, _ => by simp [fetchLoop]
  | g :: rest, st, n, h => by
    have hgm : g.userId ∈ existing := by
      simpa using h g (List.mem_cons_self _ _)
    have ih := fetchLoop_noop existing rest st n
      (fun g2 h2 => h g2 (List.mem_cons_of_mem _ h2))
    simp [fetchLoop, hgm, ih]

/-- C4: ingestion is idempotent. For a store and a fixed upstream stargazer
list (well-formed: upstream ids and logins pairwise distinct, stored ids
distinct, and a not-yet-stored upstream user's login not colliding with a
stored username), the first run succeeds, a second run against the unchanged
upstream list returns the identical stargazer row set and inserts zero rows,
and the final row set holds each identifier at most once. -/
theorem runFetch_idempotent (upstream : List Stargazer) (limit : Option Nat) (st : Store)
    (hids : (upstream.map (fun g => g.userId)).Nodup)
    (hlogins : (upstream.map (fun g => g.login)).Nodup)
    (hstore : (st.stargazers.map (fun r => r.id)).Nodup)
    (hfreshlogin : ∀ g ∈ upstream, (∀ r ∈ st.stargazers, r.id ≠ g.userId) →
      ∀ r ∈ st.stargazers, r.username ≠ g.login) :
    ∃ (st1 : Store) (n1 : Nat),
      runFetch upstream limit st = Except.ok (st1, n1) ∧
      runFetch upstream limit st1 = Except.ok (st1, 0) ∧
      (st1.stargazers.map (fun r => r.id)).Nodup := by
  have hsub : List.Sublist (applyLimit limit upstream) upstream := by
    cases limit with
    | none => exact List.Sublist.refl _
    | some l =>
      simp only [applyLimit]
      split_ifs
      · exact List.drop_sublist _ _
      · exact List.Sublist.refl _
  have hgsids : ((applyLimit limit upstream).map (fun g => g.userId)).Nodup :=
    hids.sublist (hsub.map _)
  have hgslogins : ((applyLimit limit upstream).map (fun g => g.login)).Nodup :=
    hlogins.sublist (hsub.map _)
  have hfresh : ∀ g ∈ applyLimit limit upstream,
      (st.stargazers.map (fun r => r.id)).contains g.userId = false →
      ∀ r ∈ st.stargazers, r.id ≠ g.userId ∧ r.username ≠ g.login := by
    intro g hgmem hcf r hr
    have hnm : g.userId ∉ st.stargazers.map (fun r => r.id) := by simpa using hcf
    have hidne : ∀ r2 ∈ st.stargazers, r2.id ≠ g.userId := by
      intro r2 hr2 he
      exact hnm (by
        rw [← he]
        exact List.mem_map_of_mem _ hr2)
    exact ⟨hidne r hr, hfreshlogin g (hsub.subset hgmem) hidne r hr⟩
  have hloop := fetchLoop_ok (st.stargazers.map (fun r => r.id))
    (applyLimit limit upstream) st 0 hgsids hgslogins hfresh
  refine ⟨_, _, hloop, ?_, ?_⟩
  · apply fetchLoop_noop
    intro g hgmem
    refine List.elem_iff.mpr ?_
    rw [List.map_append]
    by_cases hc : g.userId ∈ st.stargazers.map (fun r => r.id)
    · exact List.mem_append.mpr (Or.inl hc)
    · have hcf : ((st.stargazers.map (fun r => r.id)).contains g.userId) = false := by
        simpa using hc
      have hmemf : g ∈ (applyLimit limit upstream).filter
          (fun g => !(st.stargazers.map (fun r => r.id)).contains g.userId) :=
        List.mem_filter.mpr ⟨hgmem, by rw [hcf]; rfl⟩
      refine List.mem_append.mpr (Or.inr ?_)
      rw [List.map_map]
      exact List.mem_map.mpr ⟨g, hmemf, rfl⟩
  · rw [List.map_append, List.map_map, List.nodup_append]
    refine ⟨hstore, ?_, ?_⟩
    · exact hgsids.sublist ((List.filter_sublist _).map _)
    · intro x hx1 hx2
      rcases List.mem_map.mp hx2 with ⟨g, hgf, hge⟩
      have hcf : ((st.stargazers.map (fun r => r.id)).contains g.userId) = false := by
        have hb := (List.mem_filter.mp hgf).2
        simpa using hb
      have hnm : g.userId ∉ st.stargazers.map (fun r => r.id) := by simpa using hcf
      rw [← hge] at hx1
      exact hnm hx1

/-- Witness for C4: an empty store and a two-user upstream list. -/
theorem runFetch_idempotent_witness :
    (([⟨"t1", 1, "alice"⟩, ⟨"t2", 2, "bob"⟩] : List Stargazer).map
      (fun g => g.userId)).Nodup ∧
    ∃ (st1 : Store) (n1 : Nat),
      runFetch [⟨"t1", 1, "alice"⟩, ⟨"t2", 2, "bob"⟩] none ⟨[], []⟩ = Except.ok (st1, n1) ∧
      runFetch [⟨"t1", 1, "alice"⟩, ⟨"t2", 2, "bob"⟩] none st1 = Except.ok (st1, 0) ∧
      (st1.stargazers.map (fun r => r.id)).Nodup :=
  ⟨by decide,
   runFetch_idempotent [⟨"t1", 1, "alice"⟩, ⟨"t2", 2, "bob"⟩] none ⟨[], []⟩
     (by decide) (by decide) (by decide) (by decide)⟩

/-! ## Enrichment orchestrator (runEnrich) -/

/-- A repository as returned by the user-repos listing. -/
structure GitHubRepo where
  name : String
  ownerLogin : String
  fork : Bool
deriving DecidableEq, Repr

/-- Commit author/committer identity. -/
structure CommitIdent where
  name : String
  email : String
deriving DecidableEq, Repr

/-- One commit of the commit listing. -/
structure GitHubCommit where
  author : Option CommitIdent
  committer : Option CommitIdent
deriving DecidableEq, Repr

/-- The validated output of the extraction adapter. -/
structure EnrichedData where
  country : Option String
  employers : List Employer
  linkedin_url : Option String
  website_url : Option String
  university : Option String
  email : Option String
deriving DecidableEq, Repr

/-- Substring occurrence on character lists (`charsHave needle haystack`). -/
def charsHave (needle : List Char) : List Char → Bool
  | [] => charsBegin needle []
  | c :: cs => charsBegin needle (c :: cs) || charsHave needle cs

/-- The source's `s.includes(sub)`. -/
def strHas (s sub : String) : Bool := charsHave sub.data s.data

/-- JS set spreading `[...new Set(xs)]`: deduplicate keeping first occurrences, in order. -/
def dedupAux (seen : List String) : List String → List String
  | [] => []
  | x :: xs => if seen.contains x then dedupAux seen xs else x :: dedupAux (x :: seen) xs

/-- Deduplicate a string list keeping first occurrences. -/
def dedupFirst (xs : List String) : List String := dedupAux [] xs

/-- The distinct non-placeholder author/committer emails of a commit list:
flatMap both identities, drop absent/empty addresses and any containing
"noreply", then deduplicate. -/
def commitEmails (commits : List GitHubCommit) : List String :=
  dedupFirst (((commits.map (fun c =>
      [c.author.map (fun a => a.email), c.committer.map (fun a => a.email)])).flatten).filterMap
    (fun e => match e with
      | none => none
      | some s => if s ≠ "" ∧ strHas s "noreply" = false then some s else none))

/-- The external outcomes one record's processing can observe: the profile
fetch, the repo listing, the commit listing, the social-account fetch, the
extraction call (a function of the candidate-email list), and whether the
two persistence statements succeed. -/
structure RecordWorld where
  profile : Except Unit GitHubUserProfile
  repos : Except Unit (List GitHubRepo)
  commits : Except Unit (List GitHubCommit)
  social : Except Unit (List SocialAccount)
  extract : List String → Except Unit EnrichedData
  insertOk : Bool
  statusUpdateOk : Bool

/-- Candidate-email discovery: list the user's repos, take the first owned
non-fork, list its commits by the user, collect distinct non-noreply emails.
Any failure is swallowed into an empty candidate list. -/
def discoverEmails (username : String) (repos : Except Unit (List GitHubRepo))
    (commits : Except Unit (List GitHubCommit)) : List String :=
  match repos with
  | Except.error _ => []
  | Except.ok rs =>
    match rs.find? (fun r => r.ownerLogin == username && !r.fork) with
    | none => []
    | some _ =>
      match commits with
      | Except.error _ => []
      | Except.ok cs => commitEmails cs

/-- Apply `f` to the stargazer row with the given id. -/
def markRow (f : SRow → SRow) (id : Nat) (st : Store) : Store :=
  { st with stargazers := st.stargazers.map (fun r => if r.id = id then f r else r) }

/-- UPDATE stargazers SET enrichment_status = failed WHERE id = ?. -/
def markFailed (st : Store) (id : Nat) : Store :=
  markRow (fun r => { r with status := Status.failed }) id st

/-- UPDATE stargazers SET enrichment_status = completed,
enriched_at = CURRENT_TIMESTAMP WHERE id = ?. -/
def markCompleted (st : Store) (id : Nat) : Store :=
  markRow (fun r => { r with status := Status.completed, enrichedAt := true }) id st

/-- INSERT INTO enriched_profiles. -/
def insertEnriched (st : Store) (e : ERow) : Store :=
  { st with enriched := st.enriched ++ [e] }

/-- The enriched_profiles row assembled by runEnrich for one record. -/
def mkERow (id : Nat) (profile : GitHubUserProfile) (d : EnrichedData)
    (social : List SocialAccount) : ERow :=
  ⟨id, profile.name, profile.bio, profile.location, profile.company,
   d.country, d.employers, d.linkedin_url, d.website_url, d.university,
   d.email, profile.twitter_username, social, profile⟩

/-- The enrichment status of the stored row with the given id. -/
def statusOf (st : Store) (id : Nat) : Option Status :=
  (st.stargazers.find? (fun r => r.id == id)).map (fun r => r.status)

/-- Whether an enriched_profiles row exists for the given identifier. -/
def hasEnrichedRow (st : Store) (id : Nat) : Bool :=
  st.enriched.any (fun e => e.githubId == id)

/-- The per-record procedure of runEnrich: fetch the profile; when its email
is absent discover candidate emails (failures swallowed); fetch social
accounts (failures swallowed); extract; insert the enriched row (the primary
key on github_id or a failed insert raise); set status completed. Any
non-swallowed failure lands in the catch block, which sets status failed.
Returns the updated store and whether the record was enriched. -/
def processRecord (st : Store) (id : Nat) (username : String) (w : RecordWorld) :
    Store × Bool :=
  match w.profile with
  | Except.error _ => (markFailed st id, false)
  | Except.ok profile =>
    let candidateEmails :=
      if profile.email.getD "" = "" then discoverEmails username w.repos w.commits
      else []
    let socialAccounts :=
      match w.social with
      | Except.error _ => []
      | Except.ok accounts => accounts
    match w.extract candidateEmails with
    | Except.error _ => (markFailed st id, false)
    | Except.ok d =>
      if hasEnrichedRow st id then (markFailed st id, false)
      else if !w.insertOk then (markFailed st id, false)
      else
        let st2 := insertEnriched st (mkERow id profile d socialAccounts)
        if w.statusUpdateOk then (markCompleted st2 id, true)
        else (markFailed st2 id, false)

/-- The record loop of runEnrich over a selected batch of
(id, username, outcomes) triples. -/
def enrichBatch : Store → List (Nat × String × RecordWorld) → Store
  | st, [] => st
  | st, b :: rest => enrichBatch (processRecord st b.1 b.2.1 b.2.2).1 rest

/-- Default batch size of the CLI enrichment command. -/
def ENRICHMENT_BATCH_SIZE : Nat := 500

/-- JavaScript Math.round: round half toward positive infinity. -/
def jsRound (q : ℚ) : ℤ := ⌊q + 1 / 2⌋

/-- The batch-size selection of runEnrich: a sampling fraction in (0, 1]
gives max(1, round(totalPending * sample)) drawn in random order (flag
true); otherwise the explicit limit, or the fixed default, drawn in
insertion order (flag false). -/
def computeBatchSize (sample : Option ℚ) (limit : Option Nat) (totalPending : Nat) :
    Nat × Bool :=
  match sample with
  | some f =>
    if 0 < f ∧ f ≤ 1 then (max 1 (jsRound ((totalPending : ℚ) * f)).toNat, true)
    else (limit.getD ENRICHMENT_BATCH_SIZE, false)
  | none => (limit.getD ENRICHMENT_BATCH_SIZE, false)

/-- find? for the marked id after an id-preserving row update returns the
updated row. -/
theorem find?_markRow_self (f : SRow → SRow) (hf : ∀ r, (f r).id = r.id) (id : Nat) :
    ∀ l : List SRow,
      (l.map (fun r => if r.id = id then f r else r)).find? (fun r => r.id == id) =
        (l.find? (fun r => r.id == id)).map f
  | [] => rfl
  | r :: l => by
    by_cases hr : r.id = id
    · rw [List.map_cons, if_pos hr]
      rw [List.find?_cons_of_pos _ (by simp [hf r, hr]),
        List.find?_cons_of_pos _ (by simp [hr])]
      rfl
    · rw [List.map_cons, if_neg hr]
      rw [List.find?_cons_of_neg _ (by simp [hr]),
        List.find?_cons_of_neg _ (by simp [hr])]
      exact find?_markRow_self f hf id l

/-- find? for any other id is unchanged by an id-preserving row update. -/
theorem find?_markRow_other (f : SRow → SRow) (hf : ∀ r, (f r).id = r.id) (id j : Nat)
    (hne : j ≠ id) :
    ∀ l : List SRow,
      (l.map (fun r => if r.id = id then f r else r)).find? (fun r => r.id == j) =
        l.find? (fun r => r.id == j)
  | [] => rfl
  | r :: l => by
    by_cases hr : r.id = id
    · have hj : ¬r.id = j := by
        rw [hr]
        exact fun h => hne h.symm
      rw [List.map_cons, if_pos hr]
      rw [List.find?_cons_of_neg _ (by simp [hf r, hr]; exact fun h => hne h.symm),
        List.find?_cons_of_neg _ (by simp [hj])]
      exact find?_markRow_other f hf id j hne l
    · rw [List.map_cons, if_neg hr]
      by_cases hj : r.id = j
      · rw [List.find?_cons_of_pos _ (by simp [hj]),
          List.find?_cons_of_pos _ (by simp [hj])]
      · rw [List.find?_cons_of_neg _ (by simp [hj]),
          List.find?_cons_of_neg _ (by simp [hj])]
        exact find?_markRow_other f hf id j hne l

/-- Status of the failed-marked record. -/
theorem statusOf_markFailed_self (st : Store) (id : Nat) :
    statusOf (markFailed st id) id = (statusOf st id).map (fun _ => Status.failed) := by
  unfold markFailed markRow statusOf
  dsimp only
  rw [find?_markRow_self (fun r => { r with status := Status.failed })
    (fun _ => rfl) id st.stargazers]
  cases st.stargazers.find? (fun r => r.id == id) <;> rfl

/-- Status of the completed-marked record. -/
theorem statusOf_markCompleted_self (st : Store) (id : Nat) :
    statusOf (markCompleted st id) id = (statusOf st id).map (fun _ => Status.completed) := by
  unfold markCompleted markRow statusOf
  dsimp only
  rw [find?_markRow_self (fun r => { r with status := Status.completed, enrichedAt := true })
    (fun _ => rfl) id st.stargazers]
  cases st.stargazers.find? (fun r => r.id == id) <;> rfl

/-- Status of every other record is unchanged by the failed mark. -/
theorem statusOf_markFailed_other (st : Store) (id j : Nat) (hne : j ≠ id) :
    statusOf (markFailed st id) j = statusOf st j := by
  unfold markFailed markRow statusOf
  dsimp only
  rw [find?_markRow_other (fun r => { r with status := Status.failed })
    (fun _ => rfl) id j hne st.stargazers]

/-- Status of every other record is unchanged by the completed mark. -/
theorem statusOf_markCompleted_other (st : Store) (id j : Nat) (hne : j ≠ id) :
    statusOf (markCompleted st id) j = statusOf st j := by
  unfold markCompleted markRow statusOf
  dsimp only
  rw [find?_markRow_other (fun r => { r with status := Status.completed, enrichedAt := true })
    (fun _ => rfl) id j hne st.stargazers]

/-- Inserting an enriched row makes row existence the disjunction with the
new row's identifier. -/
theorem hasEnrichedRow_insert (st : Store) (e : ERow) (j : Nat) :
    hasEnrichedRow (insertEnriched st e) j = (hasEnrichedRow st j || (e.githubId == j)) := by
  simp [hasEnrichedRow, insertEnriched, List.any_append]

/-- Processing one record never changes another record's status or its
enriched-row existence. -/
theorem processRecord_frame (st : Store) (id : Nat) (u : String) (w : RecordWorld)
    (j : Nat) (hne : j ≠ id) :
    statusOf (processRecord st id u w).1 j = statusOf st j ∧
    hasEnrichedRow (processRecord st id u w).1 j = hasEnrichedRow st j := by
  have hbeq : (id == j) = false := by
    simp only [beq_eq_false_iff_ne, ne_eq]
    exact fun h => hne h.symm
  unfold processRecord
  cases w.profile with
  | error e =>
    dsimp only
    exact ⟨statusOf_markFailed_other st id j hne, rfl⟩
  | ok profile =>
    dsimp only
    cases w.extract (if profile.email.getD "" = "" then
        discoverEmails u w.repos w.commits else []) with
    | error e =>
      dsimp only
      exact ⟨statusOf_markFailed_other st id j hne, rfl⟩
    | ok d =>
      dsimp only
      by_cases hpk : hasEnrichedRow st id = true
      · rw [if_pos hpk]
        exact ⟨statusOf_markFailed_other st id j hne, rfl⟩
      · rw [if_neg hpk]
        cases hins : w.insertOk with
        | false =>
          rw [if_pos (by rfl)]
          exact ⟨statusOf_markFailed_other st id j hne, rfl⟩
        | true =>
          rw [if_neg (by simp)]
          cases hupd : w.statusUpdateOk with
          | false =>
            rw [if_neg (by simp)]
            refine ⟨statusOf_markFailed_other _ id j hne, ?_⟩
            show hasEnrichedRow (insertEnriched st _) j = hasEnrichedRow st j
            rw [hasEnrichedRow_insert]
            simp [mkERow, hbeq]
          | true =>
            rw [if_pos (by rfl)]
            refine ⟨statusOf_markCompleted_other _ id j hne, ?_⟩
            show hasEnrichedRow (insertEnriched st _) j = hasEnrichedRow st j
            rw [hasEnrichedRow_insert]
            simp [mkERow, hbeq]

/-- For the processed record itself (present in the store, with no prior
enriched row, and whose status update succeeds whenever its insert did), an
enriched row exists after processing exactly when its status is completed. -/
theorem processRecord_self_iff (st : Store) (id : Nat) (u : String) (w : RecordWorld)
    (hpres : (statusOf st id).isSome = true)
    (hno : hasEnrichedRow st id = false)
    (hok : w.insertOk = true → w.statusUpdateOk = true) :
    (hasEnrichedRow (processRecord st id u w).1 id = true ↔
      statusOf (processRecord st id u w).1 id = some Status.completed) := by
  obtain ⟨s, hs⟩ := Option.isSome_iff_exists.mp hpres
  unfold processRecord
  cases w.profile with
  | error e =>
    dsimp only
    rw [statusOf_markFailed_self, hs]
    show hasEnrichedRow st id = true ↔ _
    simp [hno]
  | ok profile =>
    dsimp only
    cases w.extract (if profile.email.getD "" = "" then
        discoverEmails u w.repos w.commits else []) with
    | error e =>
      dsimp only
      rw [statusOf_markFailed_self, hs]
      show hasEnrichedRow st id = true ↔ _
      simp [hno]
    | ok d =>
      dsimp only
      rw [if_neg (by simp [hno])]
      cases hins : w.insertOk with
      | false =>
        rw [if_pos (by rfl)]
        rw [statusOf_markFailed_self, hs]
        show hasEnrichedRow st id = true ↔ _
        simp [hno]
      | true =>
        have hupd := hok hins
        rw [if_neg (by simp), hupd, if_pos (by rfl)]
        constructor
        · intro _
          rw [statusOf_markCompleted_self]
          show ((statusOf (insertEnriched st _) id).map _) = _
          show ((statusOf st id).map _) = _
          rw [hs]
          rfl
        · intro _
          show hasEnrichedRow (insertEnriched st _) id = true
          rw [hasEnrichedRow_insert]
          simp [mkERow]

/-- Processing a batch leaves the status and enriched-row existence of every
identifier outside the batch unchanged. -/
theorem enrichBatch_frame :
    ∀ (batch : List (Nat × String × RecordWorld)) (st : Store) (j : Nat),
      (∀ b ∈ batch, b.1 ≠ j) →
      statusOf (enrichBatch st batch) j = statusOf st j ∧
      hasEnrichedRow (enrichBatch st batch) j = hasEnrichedRow st j
  | [], st, j, _ => ⟨rfl, rfl⟩
  | b :: rest, st, j, h => by
    have hb := h b (List.mem_cons_self _ _)
    have hf := processRecord_frame st b.1 b.2.1 b.2.2 j (fun he => hb he.symm)
    have ih := enrichBatch_frame rest (processRecord st b.1 b.2.1 b.2.2).1 j
      (fun b2 h2 => h b2 (List.mem_cons_of_mem _ h2))
    exact ⟨by rw [enrichBatch, ih.1, hf.1], by rw [enrichBatch, ih.2, hf.2]⟩

/-- A profile whose email is present (no candidate-email discovery needed). -/
def c1Profile : GitHubUserProfile :=
  ⟨1, "alice", none, none, none, none, none, none, some "alice@example.com"⟩

/-- An arbitrary well-formed extraction result. -/
def c1Data : EnrichedData := ⟨none, [], none, none, none, none⟩

/-- A record world where every external call and the enriched-row insert
succeed, but the completed-status update fails. -/
def c1World : RecordWorld :=
  ⟨Except.ok c1Profile, Except.ok [], Except.ok [], Except.ok [],
   fun _ => Except.ok c1Data, true, false⟩

/-- A record world where every step, persistence included, succeeds. -/
def c1GoodWorld : RecordWorld :=
  ⟨Except.ok c1Profile, Except.ok [], Except.ok [], Except.ok [],
   fun _ => Except.ok c1Data, true, true⟩

/-- A record world where every auxiliary lookup fails but the profile fetch,
extraction and persistence succeed. -/
def c6World : RecordWorld :=
  ⟨Except.ok c1Profile, Except.error (), Except.error (), Except.error (),
   fun _ => Except.ok c1Data, true, true⟩

/-- A store holding exactly one pending stargazer and no enriched rows. -/
def c1Store : Store := ⟨[⟨1, "alice", "2024-01-01", Status.pending, false⟩], []⟩

/-- C1 counterexample: a record whose enriched-row insert succeeds but whose
completed-status update then fails ends the run with status failed while its
inserted EnrichedProfile row persists — refuting both directions of the
claimed invariant for failure after a persistence step. -/
theorem runEnrich_profile_iff_counterexample :
    statusOf (enrichBatch c1Store [(1, "alice", c1World)]) 1 = some Status.failed ∧
    hasEnrichedRow (enrichBatch c1Store [(1, "alice", c1World)]) 1 = true := by
  refine ⟨rfl, rfl⟩

/-- C1 (amended): after an enrichment run over a batch of distinct pending
records with no pre-existing enriched rows, an enriched_profiles row exists
for a processed identifier if and only if that record's status is completed —
provided no record's completed-status update fails after its insert
succeeded. A record failing at or before the insert persists no row, partial
or complete; only the insert-then-status-update failure of the
counterexample leaves a row for a failed record. -/
theorem runEnrich_profile_iff_completed :
    ∀ (batch : List (Nat × String × RecordWorld)) (st : Store),
      (batch.map (fun b => b.1)).Nodup →
      (∀ b ∈ batch, statusOf st b.1 = some Status.pending) →
      (∀ b ∈ batch, hasEnrichedRow st b.1 = false) →
      (∀ b ∈ batch, b.2.2.insertOk = true → b.2.2.statusUpdateOk = true) →
      ∀ b ∈ batch,
        (hasEnrichedRow (enrichBatch st batch) b.1 = true ↔
          statusOf (enrichBatch st batch) b.1 = some Status.completed)
  | [], st, _, _, _, _ => by
    intro b hb
    cases hb
  | hd :: rest, st, hnodup, hpres, hnoerow, hnofail => by
    have hcons : hd.1 ∉ rest.map (fun b => b.1) ∧ (rest.map (fun b => b.1)).Nodup :=
      List.nodup_cons.mp hnodup
    have hnd : (∀ x ∈ rest, ¬x.1 = hd.1) ∧ (rest.map (fun b => b.1)).Nodup := by
      refine ⟨?_, hcons.2⟩
      intro x hx he
      exact hcons.1 (by
        rw [← he]
        exact List.mem_map_of_mem _ hx)
    intro b hb
    rcases List.mem_cons.mp hb with hbhd | hbr
    · subst hbhd
      have hiff := processRecord_self_iff st b.1 b.2.1 b.2.2
        (by rw [hpres b (List.mem_cons_self _ _)]; rfl)
        (hnoerow b (List.mem_cons_self _ _))
        (hnofail b (List.mem_cons_self _ _))
      have hbf := enrichBatch_frame rest (processRecord st b.1 b.2.1 b.2.2).1 b.1
        (fun b2 h2 => hnd.1 b2 h2)
      rw [show enrichBatch st (b :: rest) =
        enrichBatch (processRecord st b.1 b.2.1 b.2.2).1 rest from rfl]
      rw [hbf.1, hbf.2]
      exact hiff
    · have hpres2 : ∀ b2 ∈ rest,
          statusOf (processRecord st hd.1 hd.2.1 hd.2.2).1 b2.1 = some Status.pending := by
        intro b2 h2
        rw [(processRecord_frame st hd.1 hd.2.1 hd.2.2 b2.1 (hnd.1 b2 h2)).1]
        exact hpres b2 (List.mem_cons_of_mem _ h2)
      have hnoerow2 : ∀ b2 ∈ rest,
          hasEnrichedRow (processRecord st hd.1 hd.2.1 hd.2.2).1 b2.1 = false := by
        intro b2 h2
        rw [(processRecord_frame st hd.1 hd.2.1 hd.2.2 b2.1 (hnd.1 b2 h2)).2]
        exact hnoerow b2 (List.mem_cons_of_mem _ h2)
      have ih := runEnrich_profile_iff_completed rest
        (processRecord st hd.1 hd.2.1 hd.2.2).1 hnd.2 hpres2 hnoerow2
        (fun b2 h2 => hnofail b2 (List.mem_cons_of_mem _ h2)) b hbr
      rw [show enrichBatch st (hd :: rest) =
        enrichBatch (processRecord st hd.1 hd.2.1 hd.2.2).1 rest from rfl]
      exact ih

/-- Witness for C1 (amended): one pending record, all steps succeeding. -/
theorem runEnrich_profile_iff_completed_witness :
    ([((1 : Nat), "alice", c1GoodWorld)].map (fun b => b.1)).Nodup ∧
    statusOf c1Store 1 = some Status.pending ∧
    hasEnrichedRow c1Store 1 = false ∧
    (hasEnrichedRow (enrichBatch c1Store [(1, "alice", c1GoodWorld)]) 1 = true ↔
      statusOf (enrichBatch c1Store [(1, "alice", c1GoodWorld)]) 1 =
        some Status.completed) :=
  ⟨by simp, rfl, rfl,
   runEnrich_profile_iff_completed [(1, "alice", c1GoodWorld)] c1Store
     (by simp)
     (fun b hb => by
       rcases List.mem_singleton.mp hb with rfl
       rfl)
     (fun b hb => by
       rcases List.mem_singleton.mp hb with rfl
       rfl)
     (fun b hb _ => by
       rcases List.mem_singleton.mp hb with rfl
       rfl)
     (1, "alice", c1GoodWorld) (List.mem_singleton.mpr rfl)⟩

/-- C5: the enrichment batch size: a sampling fraction f in (0, 1] gives
max(1, round(pendingCount * f)) drawn in random order (200 pending at
f = 1/10 gives 20); an explicit limit with no fraction gives that limit in
insertion order; with neither, the fixed default 500 applies. -/
theorem batch_size_policy (totalPending l : Nat) (f : ℚ)
    (hf0 : 0 < f) (hf1 : f ≤ 1) :
    (∀ limit : Option Nat, computeBatchSize (some f) limit totalPending =
      (max 1 (jsRound ((totalPending : ℚ) * f)).toNat, true)) ∧
    computeBatchSize none (some l) totalPending = (l, false) ∧
    computeBatchSize none none totalPending = (ENRICHMENT_BATCH_SIZE, false) ∧
    computeBatchSize (some (1 / 10)) none 200 = (20, true) := by
  refine ⟨?_, rfl, rfl, ?_⟩
  · intro limit
    simp [computeBatchSize, hf0, hf1]
  · norm_num [computeBatchSize, jsRound]
    rfl

/-- Witness for C5 at f = 1/10, 200 pending. -/
theorem batch_size_policy_witness :
    (0 : ℚ) < 1 / 10 ∧ (1 / 10 : ℚ) ≤ 1 ∧
    computeBatchSize (some (1 / 10)) none 200 = (20, true) :=
  ⟨by norm_num, by norm_num,
   (batch_size_policy 200 7 (1 / 10) (by norm_num) (by norm_num)).2.2.2⟩

/-- C6: auxiliary-lookup failures are swallowed: a record whose repo listing,
commit listing and social-account fetch all fail is processed exactly as if
they had returned empty lists (empty candidate-email list, empty social
list); and when the profile fetch, extraction and both persistence steps
succeed, such a record still completes with its enriched row persisted — the
auxiliary failures never mark it failed and never stop the remaining steps. -/
theorem aux_failures_swallowed (st : Store) (id : Nat) (u : String) (w : RecordWorld)
    (profile : GitHubUserProfile) (d : EnrichedData) :
    (processRecord st id u
        { w with
            repos := Except.error ()
            commits := Except.error ()
            social := Except.error () } =
      processRecord st id u
        { w with
            repos := Except.ok []
            commits := Except.ok []
            social := Except.ok [] }) ∧
    (w.profile = Except.ok profile → w.extract [] = Except.ok d →
      w.insertOk = true → w.statusUpdateOk = true → hasEnrichedRow st id = false →
      processRecord st id u
          { w with
              repos := Except.error ()
              commits := Except.error ()
              social := Except.error () } =
        (markCompleted (insertEnriched st (mkERow id profile d [])) id, true)) := by
  constructor
  · unfold processRecord
    cases w.profile with
    | error e => rfl
    | ok p =>
      dsimp only
      simp [discoverEmails]
  · intro hp hx hins hupd hpk
    unfold processRecord
    rw [show ({ w with
        repos := Except.error ()
        commits := Except.error ()
        social := Except.error () } : RecordWorld).profile = w.profile from rfl, hp]
    dsimp only
    simp [discoverEmails, hx, hins, hupd, hpk]

/-- Witness for C6: a concrete record with failing auxiliary lookups that
nonetheless completes. -/
theorem aux_failures_swallowed_witness :
    c6World.profile = Except.ok c1Profile ∧
    c6World.insertOk = true ∧
    c6World.statusUpdateOk = true ∧
    processRecord ⟨[], []⟩ 1 "alice"
        { c6World with
            repos := Except.error ()
            commits := Except.error ()
            social := Except.error () } =
      (markCompleted (insertEnriched ⟨[], []⟩ (mkERow 1 c1Profile c1Data [])) 1, true) :=
  ⟨rfl, rfl, rfl,
   (aux_failures_swallowed ⟨[], []⟩ 1 "alice" c6World c1Profile c1Data).2
     rfl rfl rfl rfl rfl⟩

/-- C2 counterexample: with the reset an hour away (reset = 3600s, now = 0)
and 21 calls remaining — quota observed, reset in the future, remaining below
the high-water threshold and above the reserve — two pacing rounds at the
clamped maximum delay of 60s drive the remaining quota to 19, strictly below
the fixed reserve of 20, long before the reset instant. -/
theorem adaptiveWait_reserve_counterexample :
    (0 : Nat) < 3600 * 1000 - 0 ∧
    (21 : Nat) ≤ RATE_LIMIT_THRESHOLD ∧
    RATE_LIMIT_RESERVE ≤ (21 : Nat) ∧
    paceSim 3600 2 (21, 0) = (19, 120000) ∧
    (paceSim 3600 2 (21, 0)).1 < RATE_LIMIT_RESERVE := by
  refine ⟨by decide, by decide, by decide, by decide, by decide⟩

/-- C2 (amended): for every client state with quota observed, the reset in
the future, remaining quota at or below the high-water threshold and at least
the reserve, AND time-to-reset at most the maximum delay of 60s (so the
max-delay clamp never truncates the computed delay), pacing one request per
computed delay never drives the remaining quota below the fixed reserve of
20 before the reset instant. -/
theorem adaptiveWait_preserves_reserve (r reset now : Nat)
    (hfut : now < reset * 1000) (hthresh : r ≤ RATE_LIMIT_THRESHOLD)
    (hres : RATE_LIMIT_RESERVE ≤ r) (hshort : reset * 1000 - now ≤ MAX_DELAY_MS) :
    ∀ n, RATE_LIMIT_RESERVE ≤ (paceSim reset n (r, now)).1 := by
  intro n
  exact (paceSim_invariant reset n r now hres hshort).1

/-- Witness for C2 (amended) at remaining = 100, reset = 1s, now = 500ms,
three pacing rounds. -/
theorem adaptiveWait_preserves_reserve_witness :
    (500 : Nat) < 1 * 1000 ∧ (100 : Nat) ≤ RATE_LIMIT_THRESHOLD ∧
    RATE_LIMIT_RESERVE ≤ (100 : Nat) ∧ (1 : Nat) * 1000 - 500 ≤ MAX_DELAY_MS ∧
    RATE_LIMIT_RESERVE ≤ (paceSim 1 3 (100, 500)).1 :=
  ⟨by decide, by decide, by decide, by decide,
   adaptiveWait_preserves_reserve 100 1 500 (by decide) (by decide) (by decide) (by decide) 3⟩

/-- C3 counterexample: a non-2xx response with status 429 that reports zero
remaining quota is raised as an error by the client, not transparently
retried — the retry branch requires status 403 specifically. -/
theorem request_retry_counterexample :
    isRetry (handleResponse false 429 0 0 0) = false ∧
    handleResponse false 429 0 0 0 = ReqAction.failure := by
  refine ⟨by decide, by decide⟩

/-- C3 (amended): for every API response, a non-2xx response with status 403
while the tracked remaining quota is zero makes the client wait until the
reported reset instant plus a small (1s) buffer and transparently retry the
same request; every other non-2xx response fails with an error and is never
retried. -/
theorem request_dispatch (ok : Bool) (status remaining reset now : Nat) :
    (ok = false → status = 403 → remaining = 0 →
      handleResponse ok status remaining reset now =
        ReqAction.retryAfterWait ((reset * 1000 - now) + 1000)) ∧
    (ok = false → ¬(status = 403 ∧ remaining = 0) →
      handleResponse ok status remaining reset now = ReqAction.failure) := by
  constructor
  · intro hok h4 hz
    simp [handleResponse, hok, h4, hz]
  · intro hok hne
    simp [handleResponse, hok, hne]

/-- Witness for C3 (amended): the 403/zero-quota retry with its wait of
reset-minus-now plus the 1s buffer, and the failure of a 500 response. -/
theorem request_dispatch_witness :
    handleResponse false 403 0 2 500 = ReqAction.retryAfterWait 2500 ∧
    handleResponse false 500 10 2 500 = ReqAction.failure :=
  ⟨(request_dispatch false 403 0 2 500).1 rfl rfl rfl,
   (request_dispatch false 500 10 2 500).2 rfl (by decide)⟩

end StarEnrichment

namespace StarEnrichment

/-- Concrete social list on which the code's resolution differs from
"the URL of the first provider-matching entry": the first linkedin entry has
an empty URL, so the loop keeps looking and takes the second entry's URL. -/
def ctrSocialList : List SocialAccount :=
  [⟨"linkedin", ""⟩, ⟨"linkedin", "https://linkedin.com/in/x"⟩]

/-- C7 counterexample: with an empty dedicated LinkedIn field and a social
list whose first linkedin entry has an empty URL, the claim predicts the
resolution to be that first entry's URL (the empty string), but the export
resolves to the second entry's nonempty URL. -/
theorem parseSocialAccounts_first_match_refuted :
    resolveFieldFirstMatch "linkedin" "" ctrSocialList = "" ∧
    (parseSocialAccounts (some ctrSocialList) none none).1 = "https://linkedin.com/in/x" ∧
    (parseSocialAccounts (some ctrSocialList) none none).1 ≠
      resolveFieldFirstMatch "linkedin" "" ctrSocialList := by
  refine ⟨by decide, by decide, by decide⟩

/-- C7 (amended): for every raw social-account list and dedicated fields, the
export resolution yields: the dedicated field when nonempty, otherwise the URL
of the first entry whose provider matches case-insensitively and whose URL is
nonempty; any nonempty resolved Twitter value not starting with "http" is
rewritten to the fixed twitter URL template; every other-provider entry is
emitted verbatim as provider-colon-URL in list order, comma-joined, in the
overflow field and never in the dedicated columns. -/
theorem parseSocialAccounts_resolution (accounts : List SocialAccount)
    (el et : Option String) :
    parseSocialAccounts (some accounts) el et =
      (resolveField "linkedin" (el.getD "") accounts,
       twitterRewrite (resolveField "twitter" (et.getD "") accounts),
       String.intercalate ", " (othersOf accounts)) := by
  simp [parseSocialAccounts, socialFold_spec, twitterRewrite]

/-- C10: the CSV field-escaping maps null/undefined to the empty cell, returns
any value free of comma, double quote and newline verbatim, and consequently
a stargazer row with no joined EnrichedProfile renders all ten enrichment
columns (everything after username and starred_at) as empty cells. -/
theorem escapeCSV_empty_and_verbatim :
    escapeCSV none = "" ∧
    (∀ s : String, s.data.contains ',' = false → s.data.contains '"' = false →
      s.data.contains '\n' = false → escapeCSV (some s) = s) ∧
    ∀ (username : String) (starredAt : Option String),
      (buildRow username starredAt none).drop 2 = List.replicate 10 "" := by
  refine ⟨rfl, ?_, ?_⟩
  · intro s h1 h2 h3
    simp only [escapeCSV]
    rw [h1, h2, h3]
    rfl
  · intro u sa
    rfl

/-- Witness for C10 at the concrete value "abc". -/
theorem escapeCSV_empty_and_verbatim_witness :
    ("abc" : String).data.contains ',' = false ∧ escapeCSV (some "abc") = "abc" :=
  ⟨by decide, escapeCSV_empty_and_verbatim.2.1 "abc" (by decide) (by decide) (by decide)⟩

/-- C8: `standardizeCountry` is total (here: defined on every `Option String`,
mapping null to null), and idempotent on every synonym-table entry: for every
key-value pair of `COUNTRY_STANDARDIZATION`, applying the function to the
canonical value that the key maps to returns that canonical value unchanged. -/
theorem standardizeCountry_total_and_idempotent_on_table :
    standardizeCountry none = none ∧
    ∀ p, p ∈ COUNTRY_STANDARDIZATION → standardizeCountry (some p.2) = some p.2 := by
  refine ⟨rfl, ?_⟩
  decide

/-- Witness for C8 at the concrete table entry ("usa", "US"). -/
theorem standardizeCountry_total_and_idempotent_on_table_witness :
    ("usa", "US") ∈ COUNTRY_STANDARDIZATION ∧
    standardizeCountry (some "US") = some "US" :=
  ⟨by decide,
   standardizeCountry_total_and_idempotent_on_table.2 ("usa", "US") (by decide)⟩

/-- C9: concrete evaluations of `standardizeCountry`: "united states", "USA"
and "U.S." map to "US"; "  japan " (surrounding whitespace) maps to "Japan";
null maps to null; unmapped "Freedonia" maps to itself via title-casing. -/
theorem standardizeCountry_examples :
    standardizeCountry (some "united states") = some "US" ∧
    standardizeCountry (some "USA") = some "US" ∧
    standardizeCountry (some "U.S.") = some "US" ∧
    standardizeCountry (some "  japan ") = some "Japan" ∧
    standardizeCountry none = none ∧
    standardizeCountry (some "Freedonia") = some "Freedonia" := by
  refine ⟨?_, ?_, ?_, ?_, rfl, ?_⟩ <;> decide

end StarEnrichment
